import Mathlib

/-!
Shallow embedding of the `missing_owner_check` lint
(`src/lints/missing_owner_check/src/lib.rs`) and proofs about its
collection, safety-classification, coverage and reporting behaviour.

The embedding mirrors the source function by function.  HIR expressions
are modelled by the inductive `Expr`; every node carries its source span
and the two types recorded by type checking for that node
(`expr_ty`, the type of the expression, and `expr_ty_adjusted`, the type
after reference/auto-conversion adjustments).  Definition paths are lists
of segments.  External library primitives that the lint calls
(`SpanlessEq`, `visit_expr_no_bodies`, `span_lint`, the path constants)
are modelled from the specification of their interface, as noted on each
definition.
-/

/-- A fully qualified definition path, as a list of segments. -/
abbrev DefPath := List String

/-- Modelled from the spec: path constant for the Account-Handle Type
(`solana_program::account_info::AccountInfo`), from the repository paths
module that is not part of the analyzed source file. -/
def SOLANA_PROGRAM_ACCOUNT_INFO : DefPath :=
  ["solana_program", "account_info", "AccountInfo"]

/-- Modelled from the spec: path constant for the typed-account wrapper. -/
def ANCHOR_LANG_ACCOUNT : DefPath :=
  ["anchor_lang", "accounts", "account", "Account"]

/-- Modelled from the spec: path constant for the program-identity wrapper. -/
def ANCHOR_LANG_PROGRAM : DefPath :=
  ["anchor_lang", "accounts", "program", "Program"]

/-- Modelled from the spec: path constant for the system-account wrapper. -/
def ANCHOR_LANG_SYSTEM_ACCOUNT : DefPath :=
  ["anchor_lang", "accounts", "system_account", "SystemAccount"]

/-- Modelled from the spec: path constant for the lazily-loaded account wrapper. -/
def ANCHOR_LANG_ACCOUNT_LOADER : DefPath :=
  ["anchor_lang", "accounts", "account_loader", "AccountLoader"]

/-- Modelled from the spec: path constant for the signer wrapper. -/
def ANCHOR_LANG_SIGNER : DefPath :=
  ["anchor_lang", "accounts", "signer", "Signer"]

/-- Modelled from the spec: path constant for the system-variable wrapper. -/
def ANCHOR_LANG_SYSVAR : DefPath :=
  ["anchor_lang", "accounts", "sysvar", "Sysvar"]

/-- Modelled from the spec: path constant for the canonical
convert-to-account-handle conversion method. -/
def ANCHOR_LANG_TO_ACCOUNT_INFO : DefPath :=
  ["anchor_lang", "ToAccountInfo", "to_account_info"]

/-- Modelled from the spec: path constant for the canonical key-accessor
method. -/
def ANCHOR_LANG_KEY : DefPath :=
  ["anchor_lang", "Key", "key"]

/-- Modelled from the spec: path constant for the canonical copy/clone
wrapper method. -/
def CORE_CLONE : DefPath :=
  ["core", "clone", "Clone", "clone"]

/-- Resolved types, as far as the lint inspects them: nominal types with a
definition path and type arguments, references, and anything else. -/
inductive Ty where
  | adt (did : DefPath) (args : List Ty)
  | ref (inner : Ty)
  | prim (n : Nat)

/-- Binary operator kinds; the lint only distinguishes `Eq` and `Ne` from
the rest. -/
inductive BinOpKind where
  | eq
  | ne
  | lt
  | add
  | other
deriving DecidableEq, Repr

/-- Qualified paths: a resolved path with an optional self-type qualifier
and its segments, or a type-relative path. -/
inductive QPathKind where
  | resolved (qself : Option Unit) (segments : List String)
  | typeRelative (segment : String)
deriving DecidableEq, Repr

/-- HIR expressions, restricted to the node kinds the lint inspects, plus
generic nodes (`call`, `block`, `closure`, `lit`) standing for everything
else.  Each node carries its span and its two recorded types.  A closure
carries only the identifier of its separately analyzed body, so walking an
expression never descends into nested bodies. -/
inductive Expr where
  | methodCall (span : Nat) (ty tyAdj : Ty) (name : String) (defId : Option DefPath)
      (recv : Expr) (args : List Expr)
  | field (span : Nat) (ty tyAdj : Ty) (obj : Expr) (fieldName : String)
  | path (span : Nat) (ty tyAdj : Ty) (qpath : QPathKind)
  | binary (span : Nat) (ty tyAdj : Ty) (op : BinOpKind) (lhs rhs : Expr)
  | call (span : Nat) (ty tyAdj : Ty) (callee : Expr) (args : List Expr)
  | block (span : Nat) (ty tyAdj : Ty) (stmts : List Expr)
  | closure (span : Nat) (ty tyAdj : Ty) (bodyId : Nat)
  | lit (span : Nat) (ty tyAdj : Ty) (value : Nat)

/-- Source span of an expression node. -/
def expr_span : Expr → Nat
  | .methodCall s _ _ _ _ _ _ => s
  | .field s _ _ _ _ => s
  | .path s _ _ _ => s
  | .binary s _ _ _ _ _ => s
  | .call s _ _ _ _ => s
  | .block s _ _ _ => s
  | .closure s _ _ _ => s
  | .lit s _ _ _ => s

/-- The type recorded for an expression by type checking
(`typeck_results().expr_ty`). -/
def expr_ty : Expr → Ty
  | .methodCall _ t _ _ _ _ _ => t
  | .field _ t _ _ _ => t
  | .path _ t _ _ => t
  | .binary _ t _ _ _ _ => t
  | .call _ t _ _ _ => t
  | .block _ t _ _ => t
  | .closure _ t _ _ => t
  | .lit _ t _ _ => t

/-- The adjusted type recorded for an expression by type checking
(`typeck_results().expr_ty_adjusted`). -/
def expr_ty_adjusted : Expr → Ty
  | .methodCall _ _ t _ _ _ _ => t
  | .field _ _ t _ _ => t
  | .path _ _ t _ => t
  | .binary _ _ t _ _ _ => t
  | .call _ _ t _ _ => t
  | .block _ _ t _ => t
  | .closure _ _ t _ => t
  | .lit _ _ t _ => t

/-- The span-free, type-free shape of an expression: its syntactic
constructors, names and operators only.  Two expressions are structurally
equal exactly when they erase to the same shape. -/
inductive Shape where
  | methodCall (name : String) (recv : Shape) (args : List Shape)
  | field (obj : Shape) (fieldName : String)
  | path (qpath : QPathKind)
  | binary (op : BinOpKind) (lhs rhs : Shape)
  | call (callee : Shape) (args : List Shape)
  | block (stmts : List Shape)
  | closure (bodyId : Nat)
  | lit (value : Nat)

mutual

/-- Erase spans and types from an expression, keeping its syntactic shape. -/
def erase : Expr → Shape
  | .methodCall _ _ _ name _ recv args => .methodCall name (erase recv) (erase_list args)
  | .field _ _ _ obj fieldName => .field (erase obj) fieldName
  | .path _ _ _ qpath => .path qpath
  | .binary _ _ _ op lhs rhs => .binary op (erase lhs) (erase rhs)
  | .call _ _ _ callee args => .call (erase callee) (erase_list args)
  | .block _ _ _ stmts => .block (erase_list stmts)
  | .closure _ _ _ bodyId => .closure bodyId
  | .lit _ _ _ value => .lit value

/-- Erase a list of expressions to their shapes. -/
def erase_list : List Expr → List Shape
  | [] => []
  | e :: es => erase e :: erase_list es

end

mutual

/-- Modelled from the spec: the structural-equality primitive
(`SpanlessEq::eq_expr` of the external utility crate), a recursive
comparison of syntactic shape, names and operators that ignores source
spans. -/
def eq_expr : Expr → Expr → Bool
  | .methodCall _ _ _ name₁ _ recv₁ args₁, .methodCall _ _ _ name₂ _ recv₂ args₂ =>
      name₁ == name₂ && eq_expr recv₁ recv₂ && eq_expr_list args₁ args₂
  | .field _ _ _ obj₁ f₁, .field _ _ _ obj₂ f₂ =>
      f₁ == f₂ && eq_expr obj₁ obj₂
  | .path _ _ _ q₁, .path _ _ _ q₂ => q₁ == q₂
  | .binary _ _ _ op₁ l₁ r₁, .binary _ _ _ op₂ l₂ r₂ =>
      op₁ == op₂ && eq_expr l₁ l₂ && eq_expr r₁ r₂
  | .call _ _ _ c₁ args₁, .call _ _ _ c₂ args₂ =>
      eq_expr c₁ c₂ && eq_expr_list args₁ args₂
  | .block _ _ _ s₁, .block _ _ _ s₂ => eq_expr_list s₁ s₂
  | .closure _ _ _ b₁, .closure _ _ _ b₂ => b₁ == b₂
  | .lit _ _ _ v₁, .lit _ _ _ v₂ => v₁ == v₂
  | _, _ => false

/-- Structural equality on lists of expressions, element by element. -/
def eq_expr_list : List Expr → List Expr → Bool
  | [], [] => true
  | e :: es, f :: fs => eq_expr e f && eq_expr_list es fs
  | _, _ => false

end

/-- Membership test of a definition path (`match_def_path`). -/
def match_def_path (did : DefPath) (path : DefPath) : Bool :=
  did == path

/-- First index in `paths` whose path matches `did`
(`match_any_def_paths`). -/
def match_any_def_paths (did : DefPath) : List DefPath → Option Nat
  | [] => none
  | p :: ps =>
      if match_def_path did p then some 0
      else (match_any_def_paths did ps).map (· + 1)

/-- Type test of `match_type`: the type is a nominal type whose definition
path is the given path. -/
def match_type (ty : Ty) (path : DefPath) : Bool :=
  match ty with
  | .adt did _ => match_def_path did path
  | _ => false

/-- If `expr` is a method call whose resolved callee is `def_path`, return
the receiver, else `none` (`is_expr_method_call`). -/
def is_expr_method_call (expr : Expr) (def_path : DefPath) : Option Expr :=
  match expr with
  | .methodCall _ _ _ _ (some did) recv _ =>
      if match_def_path did def_path then some recv else none
  | _ => none

/-- A single-segment resolved path with no self-type qualifier: a bare
local-variable reference (`is_expr_local_variable`). -/
def is_expr_local_variable (expr : Expr) : Bool :=
  match expr with
  | .path _ _ _ (.resolved none segments) => segments.length == 1
  | _ => false

/-- The safety classifier (`is_safe_to_account_info`): the expression is a
`to_account_info` method call whose receiver has an adjusted type that is
a reference to a nominal type drawn from the listed wrapper paths. -/
def is_safe_to_account_info (expr : Expr) : Bool :=
  match is_expr_method_call expr ANCHOR_LANG_TO_ACCOUNT_INFO with
  | some recv =>
      match expr_ty_adjusted recv with
      | .ref (.adt did _) =>
          (match_any_def_paths did
            [ANCHOR_LANG_ACCOUNT,
             ANCHOR_LANG_PROGRAM,
             ANCHOR_LANG_SYSTEM_ACCOUNT,
             ANCHOR_LANG_ACCOUNT_LOADER,
             ANCHOR_LANG_SIGNER,
             ANCHOR_LANG_SYSVAR,
             SOLANA_PROGRAM_ACCOUNT_INFO]).isSome
      | _ => false
  | none => false

/-- Checks if `expr` references `field` on `account_expr`
(`uses_given_field`). -/
def uses_given_field (expr account_expr : Expr) (field : String) : Bool :=
  match expr with
  | .field _ _ _ object field_name =>
      field_name == field && eq_expr account_expr object
  | _ => false

/-- Checks if `expr` is a method call of `def_path` whose receiver is
structurally equal to `account_expr` (`calls_method_on_expr`). -/
def calls_method_on_expr (expr account_expr : Expr) (def_path : DefPath) : Bool :=
  match is_expr_method_call expr def_path with
  | some recv => eq_expr account_expr recv
  | none => false

/-- True if `expr` accesses the key of `account_expr`: the key-accessor
method call or the `key` field (`expr_accesses_key`). -/
def expr_accesses_key (expr account_expr : Expr) : Bool :=
  calls_method_on_expr expr account_expr ANCHOR_LANG_KEY
    || uses_given_field expr account_expr "key"

/-- True if `expr` is an equality or inequality comparison one of whose
sides accesses the key of `account_expr` (`compares_key`). -/
def compares_key (expr account_expr : Expr) : Bool :=
  match expr with
  | .binary _ _ _ op lhs rhs =>
      (op == BinOpKind.eq || op == BinOpKind.ne)
        && (expr_accesses_key lhs account_expr || expr_accesses_key rhs account_expr)
  | _ => false

mutual

/-- Every sub-expression of an expression in pre-order, without entering
nested bodies (a closure node carries no inline children). -/
def preorder : Expr → List Expr
  | .methodCall s t ta n d recv args =>
      .methodCall s t ta n d recv args :: (preorder recv ++ preorder_list args)
  | .field s t ta obj f => .field s t ta obj f :: preorder obj
  | .path s t ta q => [.path s t ta q]
  | .binary s t ta op lhs rhs =>
      .binary s t ta op lhs rhs :: (preorder lhs ++ preorder rhs)
  | .call s t ta callee args =>
      .call s t ta callee args :: (preorder callee ++ preorder_list args)
  | .block s t ta stmts => .block s t ta stmts :: preorder_list stmts
  | .closure s t ta b => [.closure s t ta b]
  | .lit s t ta v => [.lit s t ta v]

/-- Pre-order sub-expressions of a list of expressions, in order. -/
def preorder_list : List Expr → List Expr
  | [] => []
  | e :: es => preorder e ++ preorder_list es

end

/-- Modelled from the spec: `visit_expr_no_bodies` of the repository
utility crate (not part of the analyzed source file) tests whether some
sub-expression of `expr` satisfies the predicate, scanning the whole
expression but never entering nested, separately analyzed bodies. -/
def visit_expr_no_bodies (expr : Expr) (p : Expr → Bool) : Bool :=
  (preorder expr).any p

/-- A function body: its value expression (`Body`). -/
structure Body where
  value : Expr

/-- True if the body contains a field access of `owner` on a receiver
structurally equal to `account_expr` (`contains_owner_use`). -/
def contains_owner_use (body : Body) (account_expr : Expr) : Bool :=
  visit_expr_no_bodies body.value (fun expr => uses_given_field expr account_expr "owner")

/-- True if the body contains an equality or inequality comparison of the
key of an expression structurally equal to `account_expr`
(`contains_key_check`). -/
def contains_key_check (body : Body) (account_expr : Expr) : Bool :=
  visit_expr_no_bodies body.value (fun expr => compares_key expr account_expr)

/-- The collection condition of `AccountUses::visit_expr`: not a clone
call, of the account type, not a bare local variable, not classified safe,
and not structurally equal to an already collected use. -/
def should_collect (uses : List Expr) (e : Expr) : Bool :=
  (is_expr_method_call e CORE_CLONE).isNone
    && match_type (expr_ty e) SOLANA_PROGRAM_ACCOUNT_INFO
    && !(is_expr_local_variable e)
    && !(is_safe_to_account_info e)
    && !(uses.any fun u => eq_expr u e)

/-- One visitation step: push the expression when the collection condition
holds. -/
def collect_step (uses : List Expr) (e : Expr) : List Expr :=
  if should_collect uses e then uses ++ [e] else uses

mutual

/-- The visitor `AccountUses::visit_expr`: test the current expression,
then walk its children in order; closures carry no inline children, so
nested bodies are not entered. -/
def visit_expr (uses : List Expr) : Expr → List Expr
  | .methodCall s t ta n d recv args =>
      visit_expr_list (visit_expr (collect_step uses (.methodCall s t ta n d recv args)) recv) args
  | .field s t ta obj f => visit_expr (collect_step uses (.field s t ta obj f)) obj
  | .path s t ta q => collect_step uses (.path s t ta q)
  | .binary s t ta op lhs rhs =>
      visit_expr (visit_expr (collect_step uses (.binary s t ta op lhs rhs)) lhs) rhs
  | .call s t ta callee args =>
      visit_expr_list (visit_expr (collect_step uses (.call s t ta callee args)) callee) args
  | .block s t ta stmts => visit_expr_list (collect_step uses (.block s t ta stmts)) stmts
  | .closure s t ta b => collect_step uses (.closure s t ta b)
  | .lit s t ta v => collect_step uses (.lit s t ta v)

/-- Walk a list of child expressions in order. -/
def visit_expr_list (uses : List Expr) : List Expr → List Expr
  | [] => uses
  | e :: es => visit_expr_list (visit_expr uses e) es

end

/-- Collect the candidate account uses of a body
(`get_referenced_accounts`). -/
def get_referenced_accounts (body : Body) : List Expr :=
  visit_expr [] body.value

/-- Diagnostic severities. -/
inductive Severity where
  | allow
  | warn
  | deny
deriving DecidableEq, Repr

/-- A lint declaration: its level and description. -/
structure Lint where
  level : Severity
  desc : String

/-- The lint declaration `MISSING_OWNER_CHECK`, declared at level `Warn`. -/
def MISSING_OWNER_CHECK : Lint :=
  { level := Severity.warn
    desc := "using an account without checking if its owner is as expected" }

/-- A finding handed to the diagnostic sink: span, severity and message. -/
structure Finding where
  span : Nat
  severity : Severity
  message : String
deriving DecidableEq, Repr

/-- Modelled from the spec: `span_lint` of the external utility crate
builds one finding at the given span, carrying the level of the lint and
the message. -/
def span_lint (lint : Lint) (span : Nat) (msg : String) : Finding :=
  { span := span, severity := lint.level, message := msg }

/-- The per-body entry point `check_fn`: skip bodies whose span is from a
macro expansion; otherwise collect candidates and emit one finding for
every candidate with neither owner-use nor key-check evidence. -/
def check_fn (span_from_expansion : Bool) (body : Body) : List Finding :=
  if !span_from_expansion then
    (get_referenced_accounts body).filterMap (fun account_expr =>
      if !(contains_owner_use body account_expr)
          && !(contains_key_check body account_expr) then
        some (span_lint MISSING_OWNER_CHECK (expr_span account_expr)
          "this Account struct is used but there is no check on its owner field")
      else none)
  else []

/-! ## Linearization of the collecting visitor -/

/-- Folding the collection step over a list of expressions. -/
def collect (uses : List Expr) : List Expr → List Expr
  | [] => uses
  | e :: es => collect (collect_step uses e) es

theorem collect_append (l1 l2 : List Expr) :
    ∀ uses, collect uses (l1 ++ l2) = collect (collect uses l1) l2 := by
  induction l1 with
  | nil => intro uses; rfl
  | cons e es ih => intro uses; simp [collect, ih]

mutual

theorem visit_expr_eq_collect : ∀ (uses : List Expr) (e : Expr),
    visit_expr uses e = collect uses (preorder e)
  | uses, .methodCall s t ta n d recv args => by
      rw [visit_expr, preorder, collect, collect_append,
        visit_expr_eq_collect _ recv, visit_expr_list_eq_collect _ args]
  | uses, .field s t ta obj f => by
      rw [visit_expr, preorder, collect, visit_expr_eq_collect _ obj]
  | uses, .path s t ta q => by rw [visit_expr, preorder, collect, collect]
  | uses, .binary s t ta op lhs rhs => by
      rw [visit_expr, preorder, collect, collect_append,
        visit_expr_eq_collect _ lhs, visit_expr_eq_collect _ rhs]
  | uses, .call s t ta callee args => by
      rw [visit_expr, preorder, collect, collect_append,
        visit_expr_eq_collect _ callee, visit_expr_list_eq_collect _ args]
  | uses, .block s t ta stmts => by
      rw [visit_expr, preorder, collect, visit_expr_list_eq_collect _ stmts]
  | uses, .closure s t ta b => by rw [visit_expr, preorder, collect, collect]
  | uses, .lit s t ta v => by rw [visit_expr, preorder, collect, collect]

theorem visit_expr_list_eq_collect : ∀ (uses : List Expr) (es : List Expr),
    visit_expr_list uses es = collect uses (preorder_list es)
  | uses, [] => by rw [visit_expr_list, preorder_list, collect]
  | uses, e :: es => by
      rw [visit_expr_list, preorder_list, collect_append,
        visit_expr_eq_collect uses e, visit_expr_list_eq_collect _ es]

end

theorem get_referenced_accounts_eq_collect (body : Body) :
    get_referenced_accounts body = collect [] (preorder body.value) :=
  visit_expr_eq_collect [] body.value

/-! ## Structural equality is span-erased shape equality -/

mutual

theorem eq_expr_iff_erase : ∀ (a b : Expr), eq_expr a b = true ↔ erase a = erase b
  | .methodCall _ _ _ n d r g, b => by
      cases b <;>
        simp [eq_expr, erase, eq_expr_iff_erase r, eq_expr_list_iff_erase g,
          and_assoc, and_comm, and_left_comm]
  | .field _ _ _ obj f, b => by
      cases b <;>
        simp [eq_expr, erase, eq_expr_iff_erase obj, and_assoc, and_comm, and_left_comm]
  | .path _ _ _ q, b => by cases b <;> simp [eq_expr, erase]
  | .binary _ _ _ op l r, b => by
      cases b <;>
        simp [eq_expr, erase, eq_expr_iff_erase l, eq_expr_iff_erase r,
          and_assoc, and_comm, and_left_comm]
  | .call _ _ _ c g, b => by
      cases b <;>
        simp [eq_expr, erase, eq_expr_iff_erase c, eq_expr_list_iff_erase g,
          and_assoc, and_comm, and_left_comm]
  | .block _ _ _ st, b => by cases b <;> simp [eq_expr, erase, eq_expr_list_iff_erase st]
  | .closure _ _ _ bid, b => by cases b <;> simp [eq_expr, erase]
  | .lit _ _ _ v, b => by cases b <;> simp [eq_expr, erase]

theorem eq_expr_list_iff_erase : ∀ (xs ys : List Expr),
    eq_expr_list xs ys = true ↔ erase_list xs = erase_list ys
  | [], ys => by cases ys <;> simp [eq_expr_list, erase_list]
  | x :: xs, ys => by
      cases ys <;>
        simp [eq_expr_list, erase_list, eq_expr_iff_erase x, eq_expr_list_iff_erase xs]

end

theorem eq_expr_false_iff (a b : Expr) : eq_expr a b = false ↔ erase a ≠ erase b := by
  rw [← Bool.not_eq_true, eq_expr_iff_erase a b]

/-! ## Membership in the collected candidate set -/

/-- The per-expression filters of `AccountUses::visit_expr` that do not
depend on previously collected uses: not a clone call, of the account
type, not a bare local, not classified safe. -/
def eligible_candidate (e : Expr) : Bool :=
  (is_expr_method_call e CORE_CLONE).isNone
    && match_type (expr_ty e) SOLANA_PROGRAM_ACCOUNT_INFO
    && !(is_expr_local_variable e)
    && !(is_safe_to_account_info e)

theorem should_collect_eq (uses : List Expr) (e : Expr) :
    should_collect uses e =
      (eligible_candidate e && !(uses.any fun u => eq_expr u e)) := by
  simp [should_collect, eligible_candidate, Bool.and_assoc]

theorem any_eq_expr_false_mem {uses : List Expr} {c : Expr}
    (h : (uses.any fun u => eq_expr u c) = false) :
    ∀ u ∈ uses, erase u ≠ erase c := by
  intro u hu
  rw [← eq_expr_false_iff]
  cases hx : eq_expr u c
  · rfl
  · have : (uses.any fun u => eq_expr u c) = true := List.any_eq_true.mpr ⟨u, hu, hx⟩
    rw [this] at h
    cases h

theorem should_collect_true_parts {uses : List Expr} {e : Expr}
    (h : should_collect uses e = true) :
    eligible_candidate e = true ∧ (uses.any fun u => eq_expr u e) = false := by
  rw [should_collect_eq, Bool.and_eq_true] at h
  exact ⟨h.1, by simpa using h.2⟩

theorem mem_collect : ∀ (l uses : List Expr) (c : Expr), c ∈ collect uses l →
    c ∈ uses ∨
      (eligible_candidate c = true ∧ (∀ u ∈ uses, erase u ≠ erase c) ∧
        ∃ l1 l2, l = l1 ++ c :: l2 ∧
          ∀ e ∈ l1, eligible_candidate e = true → erase e ≠ erase c) := by
  intro l
  induction l with
  | nil => intro uses c hc; exact Or.inl hc
  | cons e es ih =>
    intro uses c hc
    rw [collect] at hc
    rcases ih (collect_step uses e) c hc with hmem | ⟨helig, hfresh, l1, l2, hsplit, hblock⟩
    · unfold collect_step at hmem
      by_cases hsc : should_collect uses e = true
      · rw [if_pos hsc] at hmem
        rcases List.mem_append.mp hmem with hu | he
        · exact Or.inl hu
        · have hce : c = e := List.mem_singleton.mp he
          subst hce
          rcases should_collect_true_parts hsc with ⟨helig, hany⟩
          exact Or.inr ⟨helig, any_eq_expr_false_mem hany, [], es, rfl, by simp⟩
      · rw [if_neg hsc] at hmem
        exact Or.inl hmem
    · have hfresh2 : ∀ u ∈ uses, erase u ≠ erase c := by
        intro u hu
        apply hfresh
        unfold collect_step
        by_cases hsc : should_collect uses e = true
        · rw [if_pos hsc]; exact List.mem_append.mpr (Or.inl hu)
        · rw [if_neg hsc]; exact hu
      refine Or.inr ⟨helig, hfresh2, e :: l1, l2, by simp [hsplit], ?_⟩
      intro x hx hxelig
      rcases List.mem_cons.mp hx with hxe | hxl
      · subst hxe
        by_cases hsc : should_collect uses x = true
        · apply hfresh
          unfold collect_step
          rw [if_pos hsc]
          exact List.mem_append.mpr (Or.inr (List.mem_singleton.mpr rfl))
        · rw [should_collect_eq, Bool.and_eq_true] at hsc
          push_neg at hsc
          have hany : (uses.any fun u => eq_expr u x) = true := by
            have h2 := hsc hxelig
            cases h : uses.any fun u => eq_expr u x
            · exact absurd (by simp [h]) h2
            · rfl
          rcases List.any_eq_true.mp hany with ⟨u, hu, hux⟩
          have h1 : erase u = erase x := (eq_expr_iff_erase u x).mp hux
          intro hxc
          exact hfresh2 u hu (h1.trans hxc)
      · exact hblock x hxl hxelig

/-! ## The dedup invariant -/

theorem collect_pairwise : ∀ (l uses : List Expr),
    uses.Pairwise (fun a b => erase a ≠ erase b) →
    (collect uses l).Pairwise (fun a b => erase a ≠ erase b) := by
  intro l
  induction l with
  | nil => intro uses h; exact h
  | cons e es ih =>
    intro uses h
    rw [collect]
    apply ih
    unfold collect_step
    by_cases hsc : should_collect uses e = true
    · rw [if_pos hsc]
      rcases should_collect_true_parts hsc with ⟨_, hany⟩
      rw [List.pairwise_append]
      exact ⟨h, List.pairwise_singleton _ _, by
        intro a ha b hb
        rw [List.mem_singleton] at hb
        subst hb
        exact any_eq_expr_false_mem hany a ha⟩
    · rw [if_neg hsc]; exact h

/-! ## Spec-side evidence predicates and their equivalences -/

theorem match_type_iff (t : Ty) (p : DefPath) :
    match_type t p = true ↔ ∃ targs, t = Ty.adt p targs := by
  cases t with
  | adt did targs =>
      constructor
      · intro h
        have hdp : did = p := by simpa [match_type, match_def_path] using h
        exact ⟨targs, by rw [hdp]⟩
      · rintro ⟨targs2, ht⟩
        injection ht with h1 h2
        simp [match_type, match_def_path, h1]
  | ref inner =>
      constructor
      · intro h; simp [match_type] at h
      · rintro ⟨targs, ht⟩; cases ht
  | prim n =>
      constructor
      · intro h; simp [match_type] at h
      · rintro ⟨targs, ht⟩; cases ht

theorem match_any_def_paths_isSome (did : DefPath) : ∀ (ps : List DefPath),
    (match_any_def_paths did ps).isSome = true ↔ did ∈ ps
  | [] => by simp [match_any_def_paths]
  | p :: ps => by
      have ih := match_any_def_paths_isSome did ps
      by_cases h : did = p
      · simp [match_any_def_paths, match_def_path, h]
      · rw [show match_any_def_paths did (p :: ps)
              = (match_any_def_paths did ps).map (· + 1) from by
            simp [match_any_def_paths, match_def_path, h]]
        rw [List.mem_cons]
        cases hm : match_any_def_paths did ps with
        | none =>
            rw [hm] at ih
            simp only [Option.isSome_none, Bool.false_eq_true, false_iff] at ih
            simp [h, ih]
        | some k =>
            rw [hm] at ih
            simp only [Option.isSome_some, true_iff] at ih
            simp [h, ih]

theorem is_expr_method_call_eq_some (e : Expr) (p : DefPath) (r : Expr) :
    is_expr_method_call e p = some r ↔
      ∃ s t ta n g, e = Expr.methodCall s t ta n (some p) r g := by
  constructor
  · intro h
    cases e with
    | methodCall s t ta n d recv g =>
        cases d with
        | none => simp [is_expr_method_call] at h
        | some did =>
            by_cases hdp : did = p
            · subst hdp
              have hr : recv = r := by
                simpa [is_expr_method_call, match_def_path] using h
              exact ⟨s, t, ta, n, g, by rw [hr]⟩
            · simp [is_expr_method_call, match_def_path, hdp] at h
    | field s t ta obj f => simp [is_expr_method_call] at h
    | path s t ta q => simp [is_expr_method_call] at h
    | binary s t ta op lhs rhs => simp [is_expr_method_call] at h
    | call s t ta callee args => simp [is_expr_method_call] at h
    | block s t ta stmts => simp [is_expr_method_call] at h
    | closure s t ta b => simp [is_expr_method_call] at h
    | lit s t ta v => simp [is_expr_method_call] at h
  · rintro ⟨s, t, ta, n, g, he⟩
    rw [he]
    simp [is_expr_method_call, match_def_path]

theorem uses_given_field_iff (e c : Expr) (fld : String) :
    uses_given_field e c fld = true ↔
      ∃ s t ta obj, e = Expr.field s t ta obj fld ∧ erase obj = erase c := by
  constructor
  · intro h
    cases e with
    | field s t ta obj fn =>
        have h2 : (fn == fld && eq_expr c obj) = true := by
          simpa [uses_given_field] using h
        rw [Bool.and_eq_true, beq_iff_eq] at h2
        exact ⟨s, t, ta, obj, by rw [h2.1], ((eq_expr_iff_erase c obj).mp h2.2).symm⟩
    | methodCall s t ta n d recv g => simp [uses_given_field] at h
    | path s t ta q => simp [uses_given_field] at h
    | binary s t ta op lhs rhs => simp [uses_given_field] at h
    | call s t ta callee args => simp [uses_given_field] at h
    | block s t ta stmts => simp [uses_given_field] at h
    | closure s t ta b => simp [uses_given_field] at h
    | lit s t ta v => simp [uses_given_field] at h
  · rintro ⟨s, t, ta, obj, he, hobj⟩
    rw [he]
    simp [uses_given_field, (eq_expr_iff_erase c obj).mpr hobj.symm]

theorem calls_method_on_expr_iff (e c : Expr) (p : DefPath) :
    calls_method_on_expr e c p = true ↔
      ∃ s t ta n r g, e = Expr.methodCall s t ta n (some p) r g ∧ erase r = erase c := by
  unfold calls_method_on_expr
  constructor
  · intro h
    cases hm : is_expr_method_call e p with
    | none => rw [hm] at h; cases h
    | some recv =>
        rw [hm] at h
        rcases (is_expr_method_call_eq_some e p recv).mp hm with ⟨s, t, ta, n, g, he⟩
        exact ⟨s, t, ta, n, recv, g, he, ((eq_expr_iff_erase c recv).mp h).symm⟩
  · rintro ⟨s, t, ta, n, r, g, he, hr⟩
    have hm : is_expr_method_call e p = some r :=
      (is_expr_method_call_eq_some e p r).mpr ⟨s, t, ta, n, g, he⟩
    rw [hm]
    exact (eq_expr_iff_erase c r).mpr hr.symm

/-- A key access of `c`, as the spec words it: a field access of `key` on
a receiver structurally equal to `c`, or a call of the canonical
key-accessor method on such a receiver. -/
def spec_key_access (c e : Expr) : Prop :=
  (∃ s t ta n r g, e = Expr.methodCall s t ta n (some ANCHOR_LANG_KEY) r g ∧ erase r = erase c)
    ∨ (∃ s t ta obj, e = Expr.field s t ta obj "key" ∧ erase obj = erase c)

theorem expr_accesses_key_iff (e c : Expr) :
    expr_accesses_key e c = true ↔ spec_key_access c e := by
  unfold expr_accesses_key spec_key_access
  rw [Bool.or_eq_true, calls_method_on_expr_iff, uses_given_field_iff]

theorem compares_key_iff (e c : Expr) :
    compares_key e c = true ↔
      ∃ s t ta op lhs rhs, e = Expr.binary s t ta op lhs rhs ∧
        (op = BinOpKind.eq ∨ op = BinOpKind.ne) ∧
        (spec_key_access c lhs ∨ spec_key_access c rhs) := by
  cases e <;>
    simp [compares_key, ← expr_accesses_key_iff, and_assoc, and_comm, and_left_comm]

/-- Owner-field evidence for `c`, as the spec words it: some expression of
the body is a field access of `owner` on a receiver structurally equal to
`c`. -/
def spec_owner_evidence (body : Body) (c : Expr) : Prop :=
  ∃ e ∈ preorder body.value,
    ∃ s t ta obj, e = Expr.field s t ta obj "owner" ∧ erase obj = erase c

/-- Key-comparison evidence for `c`, as the spec words it: some expression
of the body is an equality or inequality comparison one of whose sides is
a key access of a receiver structurally equal to `c`. -/
def spec_key_evidence (body : Body) (c : Expr) : Prop :=
  ∃ e ∈ preorder body.value,
    ∃ s t ta op lhs rhs, e = Expr.binary s t ta op lhs rhs ∧
      (op = BinOpKind.eq ∨ op = BinOpKind.ne) ∧
      (spec_key_access c lhs ∨ spec_key_access c rhs)

theorem contains_owner_use_iff (body : Body) (c : Expr) :
    contains_owner_use body c = true ↔ spec_owner_evidence body c := by
  unfold contains_owner_use visit_expr_no_bodies spec_owner_evidence
  rw [List.any_eq_true]
  constructor
  · rintro ⟨e, he, hp⟩
    exact ⟨e, he, (uses_given_field_iff e c "owner").mp hp⟩
  · rintro ⟨e, he, hp⟩
    exact ⟨e, he, (uses_given_field_iff e c "owner").mpr hp⟩

theorem contains_key_check_iff (body : Body) (c : Expr) :
    contains_key_check body c = true ↔ spec_key_evidence body c := by
  unfold contains_key_check visit_expr_no_bodies spec_key_evidence
  rw [List.any_eq_true]
  constructor
  · rintro ⟨e, he, hp⟩
    exact ⟨e, he, (compares_key_iff e c).mp hp⟩
  · rintro ⟨e, he, hp⟩
    exact ⟨e, he, (compares_key_iff e c).mpr hp⟩

/-! ## Helper facts about candidates and findings -/

theorem mem_accounts_eligible (body : Body) (c : Expr)
    (hc : c ∈ get_referenced_accounts body) : eligible_candidate c = true := by
  rw [get_referenced_accounts_eq_collect] at hc
  rcases mem_collect _ [] c hc with h0 | ⟨helig, _⟩
  · cases h0
  · exact helig

theorem eligible_candidate_parts {e : Expr} (h : eligible_candidate e = true) :
    (is_expr_method_call e CORE_CLONE).isNone = true ∧
    match_type (expr_ty e) SOLANA_PROGRAM_ACCOUNT_INFO = true ∧
    is_expr_local_variable e = false ∧
    is_safe_to_account_info e = false := by
  simp only [eligible_candidate, Bool.and_eq_true, Bool.not_eq_true'] at h
  exact ⟨h.1.1.1, h.1.1.2, h.1.2, h.2⟩

theorem check_fn_true_eq (body : Body) : check_fn true body = [] := rfl

theorem check_fn_false_eq (body : Body) :
    check_fn false body = (get_referenced_accounts body).filterMap
      (fun account_expr =>
        if !(contains_owner_use body account_expr)
            && !(contains_key_check body account_expr) then
          some (span_lint MISSING_OWNER_CHECK (expr_span account_expr)
            "this Account struct is used but there is no check on its owner field")
        else none) := rfl

theorem mem_check_fn_shape {fe : Bool} {body : Body} {f : Finding}
    (hf : f ∈ check_fn fe body) :
    ∃ c, c ∈ get_referenced_accounts body ∧
      contains_owner_use body c = false ∧ contains_key_check body c = false ∧
      f = span_lint MISSING_OWNER_CHECK (expr_span c)
        "this Account struct is used but there is no check on its owner field" := by
  cases fe with
  | true =>
      rw [check_fn_true_eq] at hf
      cases hf
  | false =>
      rw [check_fn_false_eq] at hf
      rcases List.mem_filterMap.mp hf with ⟨c, hc, heq⟩
      by_cases hg : (!(contains_owner_use body c) && !(contains_key_check body c)) = true
      · rw [if_pos hg] at heq
        rw [Bool.and_eq_true, Bool.not_eq_true', Bool.not_eq_true'] at hg
        exact ⟨c, hc, hg.1, hg.2, (Option.some.inj heq).symm⟩
      · rw [if_neg hg] at heq
        cases heq

theorem pairwise_erase_mem_eq {l : List Expr}
    (hp : l.Pairwise (fun a b => erase a ≠ erase b)) :
    ∀ x ∈ l, ∀ y ∈ l, erase x = erase y → x = y := by
  induction l with
  | nil => intro x hx; cases hx
  | cons a l ih =>
      rw [List.pairwise_cons] at hp
      intro x hx y hy hxy
      rcases List.mem_cons.mp hx with hxa | hxl
      · rcases List.mem_cons.mp hy with hya | hyl
        · rw [hxa, hya]
        · subst hxa
          exact absurd hxy (hp.1 y hyl)
      · rcases List.mem_cons.mp hy with hya | hyl
        · subst hya
          exact absurd hxy.symm (hp.1 x hxl)
        · exact ih hp.2 x hxl y hyl hxy

theorem accounts_pairwise_erase (body : Body) :
    (get_referenced_accounts body).Pairwise (fun a b => erase a ≠ erase b) := by
  rw [get_referenced_accounts_eq_collect]
  exact collect_pairwise (preorder body.value) [] List.Pairwise.nil

/-! ## Concrete example expressions and bodies -/

/-- The Account-Handle Type as a resolved type with no arguments. -/
def acct_ty : Ty := Ty.adt SOLANA_PROGRAM_ACCOUNT_INFO []

/-- A bare context variable, not of the account type. -/
def ex_ctx : Expr := Expr.path 0 (Ty.prim 0) (Ty.prim 0) (QPathKind.resolved none ["ctx"])

/-- A candidate account use: the field access `ctx.a` of account type. -/
def ex_acct_use : Expr := Expr.field 1 acct_ty acct_ty ex_ctx "a"

/-- A body consisting of one account use and nothing else. -/
def ex_body_simple : Body := ⟨ex_acct_use⟩

/-- A second context variable at a different span, same shape. -/
def ex_ctx2 : Expr := Expr.path 2 (Ty.prim 0) (Ty.prim 0) (QPathKind.resolved none ["ctx"])

/-- A second occurrence of the account use `ctx.a`, at different spans. -/
def ex_acct_use2 : Expr := Expr.field 3 acct_ty acct_ty ex_ctx2 "a"

/-- A clone call on the second occurrence of the account use. -/
def ex_clone_call : Expr :=
  Expr.methodCall 4 acct_ty acct_ty "clone" (some CORE_CLONE) ex_acct_use2 []

/-- A body referencing `ctx.a` and later `ctx.a.clone()`. -/
def ex_body_clone : Body :=
  ⟨Expr.block 5 (Ty.prim 0) (Ty.prim 0) [ex_acct_use, ex_clone_call]⟩

/-- A third context variable at a different span, same shape. -/
def ex_ctx3 : Expr := Expr.path 6 (Ty.prim 0) (Ty.prim 0) (QPathKind.resolved none ["ctx"])

/-- A third occurrence of the account use `ctx.a`. -/
def ex_acct_use3 : Expr := Expr.field 7 acct_ty acct_ty ex_ctx3 "a"

/-- A body with two structurally equal account uses at different spans. -/
def ex_body_dup : Body :=
  ⟨Expr.block 8 (Ty.prim 0) (Ty.prim 0) [ex_acct_use, ex_acct_use3]⟩

/-- A receiver whose adjusted type is a reference to the Account-Handle
Type itself, not to one of the six wrapper types. -/
def ex_recv_accountinfo : Expr :=
  Expr.path 9 acct_ty (Ty.ref acct_ty) (QPathKind.resolved none ["acc"])

/-- The conversion call on that receiver. -/
def ex_to_info_call : Expr :=
  Expr.methodCall 10 acct_ty acct_ty "to_account_info"
    (some ANCHOR_LANG_TO_ACCOUNT_INFO) ex_recv_accountinfo []

/-- An object of some non-account type. -/
def ex_c4_obj : Expr := Expr.path 11 (Ty.prim 0) (Ty.prim 0) (QPathKind.resolved none ["s"])

/-- A field access whose recorded type is a reference to the account type
while its adjusted type is the account type itself. -/
def ex_c4 : Expr := Expr.field 12 (Ty.ref acct_ty) acct_ty ex_c4_obj "f"

/-- A body consisting of that field access. -/
def ex_body_c4 : Body := ⟨ex_c4⟩

/-! ## Claim theorems -/

/-- Spec-side safety classifier following the claim wording for C2: a
direct conversion call whose receiver resolves to a wrapper over exactly
one of the six enumerated Safety-Witness Types. -/
def spec_safe_six (e : Expr) : Prop :=
  ∃ r, is_expr_method_call e ANCHOR_LANG_TO_ACCOUNT_INFO = some r ∧
    ∃ did targs, expr_ty_adjusted r = Ty.ref (Ty.adt did targs) ∧
      did ∈ [ANCHOR_LANG_ACCOUNT, ANCHOR_LANG_PROGRAM, ANCHOR_LANG_SYSTEM_ACCOUNT,
             ANCHOR_LANG_ACCOUNT_LOADER, ANCHOR_LANG_SIGNER, ANCHOR_LANG_SYSVAR]

/-- Spec-side safety classifier amended for C2: the receiver wrapper may
also be the Account-Handle Type itself, a seventh accepted outer type. -/
def spec_safe_witness_type (e : Expr) : Prop :=
  ∃ r, is_expr_method_call e ANCHOR_LANG_TO_ACCOUNT_INFO = some r ∧
    ∃ did targs, expr_ty_adjusted r = Ty.ref (Ty.adt did targs) ∧
      (did ∈ [ANCHOR_LANG_ACCOUNT, ANCHOR_LANG_PROGRAM, ANCHOR_LANG_SYSTEM_ACCOUNT,
              ANCHOR_LANG_ACCOUNT_LOADER, ANCHOR_LANG_SIGNER, ANCHOR_LANG_SYSVAR]
        ∨ did = SOLANA_PROGRAM_ACCOUNT_INFO)

/-- C2, counterexample: the classifier also accepts a receiver whose
resolved wrapper type is the Account-Handle Type itself, which is not one
of the six enumerated Safety-Witness Types, so the claimed
six-type equivalence is false. -/
theorem claim_C2_counterexample :
    is_safe_to_account_info ex_to_info_call = true ∧ ¬ spec_safe_six ex_to_info_call := by
  constructor
  · decide
  · rintro ⟨r, hr, did, targs, hadj, hmem⟩
    have hr2 : r = ex_recv_accountinfo := by
      rw [show is_expr_method_call ex_to_info_call ANCHOR_LANG_TO_ACCOUNT_INFO
          = some ex_recv_accountinfo from rfl] at hr
      exact (Option.some.inj hr).symm
    subst hr2
    rw [show expr_ty_adjusted ex_recv_accountinfo
        = Ty.ref (Ty.adt SOLANA_PROGRAM_ACCOUNT_INFO []) from rfl] at hadj
    injection hadj with h1
    injection h1 with h2 h3
    subst h2
    revert hmem
    decide

/-- C2, amended: the SafetyClassifier classifies an expression safe iff it
is a direct call of the canonical conversion method whose receiver
resolves to a reference to a wrapper whose outer type is one of the six
Safety-Witness Types or the Account-Handle Type itself. -/
theorem claim_C2_amended (e : Expr) :
    is_safe_to_account_info e = true ↔ spec_safe_witness_type e := by
  unfold is_safe_to_account_info spec_safe_witness_type
  cases hm : is_expr_method_call e ANCHOR_LANG_TO_ACCOUNT_INFO with
  | none => simp
  | some recv =>
      simp only [Option.some.injEq]
      cases hty : expr_ty_adjusted recv with
      | adt did targs =>
          constructor
          · intro h; cases h
          · rintro ⟨r, hr, did2, targs2, hadj, hmem⟩
            subst hr
            rw [hty] at hadj
            cases hadj
      | prim n =>
          constructor
          · intro h; cases h
          · rintro ⟨r, hr, did2, targs2, hadj, hmem⟩
            subst hr
            rw [hty] at hadj
            cases hadj
      | ref inner =>
          cases inner with
          | adt did targs =>
              rw [match_any_def_paths_isSome]
              constructor
              · intro h
                refine ⟨recv, rfl, did, targs, hty, ?_⟩
                simp only [List.mem_cons, List.not_mem_nil, or_false] at h ⊢
                tauto
              · rintro ⟨r, hr, did2, targs2, hadj, hmem⟩
                subst hr
                rw [hty] at hadj
                injection hadj with h1
                injection h1 with h2 h3
                subst h2
                simp only [List.mem_cons, List.not_mem_nil, or_false] at hmem ⊢
                tauto
          | ref inner2 =>
              constructor
              · intro h; cases h
              · rintro ⟨r, hr, did2, targs2, hadj, hmem⟩
                subst hr
                rw [hty] at hadj
                injection hadj with h1
                cases h1
          | prim n =>
              constructor
              · intro h; cases h
              · rintro ⟨r, hr, did2, targs2, hadj, hmem⟩
                subst hr
                rw [hty] at hadj
                injection hadj with h1
                cases h1

/-- C3: the Candidate Set collected from a body never contains two
expressions that are structurally equal to each other. -/
theorem claim_C3_dedup (body : Body) :
    (get_referenced_accounts body).Pairwise
      (fun a b => eq_expr a b = false ∧ eq_expr b a = false) := by
  refine (accounts_pairwise_erase body).imp ?_
  intro a b hab
  exact ⟨(eq_expr_false_iff a b).mpr hab, (eq_expr_false_iff b a).mpr (Ne.symm hab)⟩

/-- C5: the key-comparison strategy reports a candidate checked iff the
body contains an equality or inequality comparison one of whose sides is a
key access (the `key` field or the canonical key-accessor method) of a
receiver structurally equal to the candidate. -/
theorem claim_C5_key_comparison (body : Body) (c : Expr) :
    contains_key_check body c = true ↔ spec_key_evidence body c :=
  contains_key_check_iff body c

/-- C9: a body whose span originates from a macro expansion produces no
findings at all. -/
theorem claim_C9_expansion (body : Body) : check_fn true body = [] :=
  check_fn_true_eq body

/-- C1: for a collected candidate, a finding is emitted at its span iff
the body contains neither an `owner` field access on a structurally equal
receiver nor key-comparison evidence for it.  Distinct candidates of one
body are assumed to carry distinct source spans, as expression nodes do. -/
theorem claim_C1_unchecked_iff_finding (body : Body) (c : Expr)
    (hc : c ∈ get_referenced_accounts body)
    (hinj : ∀ c1 c2, c1 ∈ get_referenced_accounts body →
      c2 ∈ get_referenced_accounts body → expr_span c1 = expr_span c2 → c1 = c2) :
    (span_lint MISSING_OWNER_CHECK (expr_span c)
        "this Account struct is used but there is no check on its owner field"
      ∈ check_fn false body)
      ↔ (¬ spec_owner_evidence body c ∧ ¬ spec_key_evidence body c) := by
  constructor
  · intro h
    rcases mem_check_fn_shape h with ⟨a, ha, howner, hkey, heq⟩
    have hspan : expr_span a = expr_span c := by
      have h2 := congrArg Finding.span heq
      simpa [span_lint] using h2.symm
    have hac : a = c := hinj a c ha hc hspan
    subst hac
    constructor
    · intro hs
      rw [(contains_owner_use_iff body a).mpr hs] at howner
      cases howner
    · intro hs
      rw [(contains_key_check_iff body a).mpr hs] at hkey
      cases hkey
  · rintro ⟨h1, h2⟩
    have hb1 : contains_owner_use body c = false := by
      cases hh : contains_owner_use body c
      · rfl
      · exact absurd ((contains_owner_use_iff body c).mp hh) h1
    have hb2 : contains_key_check body c = false := by
      cases hh : contains_key_check body c
      · rfl
      · exact absurd ((contains_key_check_iff body c).mp hh) h2
    rw [check_fn_false_eq]
    apply List.mem_filterMap.mpr
    refine ⟨c, hc, ?_⟩
    rw [hb1, hb2]
    rfl

/-- C1, witness: in the one-candidate body with no evidence, the finding
at the candidate span is emitted. -/
theorem claim_C1_witness :
    span_lint MISSING_OWNER_CHECK (expr_span ex_acct_use)
        "this Account struct is used but there is no check on its owner field"
      ∈ check_fn false ex_body_simple := by
  have hacc : get_referenced_accounts ex_body_simple = [ex_acct_use] := rfl
  have hmem : ex_acct_use ∈ get_referenced_accounts ex_body_simple := by
    rw [hacc]; exact List.mem_singleton.mpr rfl
  have hinj : ∀ c1 c2, c1 ∈ get_referenced_accounts ex_body_simple →
      c2 ∈ get_referenced_accounts ex_body_simple → expr_span c1 = expr_span c2 → c1 = c2 := by
    intro c1 c2 h1 h2 _
    rw [hacc] at h1 h2
    rw [List.mem_singleton.mp h1, List.mem_singleton.mp h2]
  apply (claim_C1_unchecked_iff_finding ex_body_simple ex_acct_use hmem hinj).mpr
  constructor
  · intro hs
    have h1 := (contains_owner_use_iff ex_body_simple ex_acct_use).mpr hs
    rw [show contains_owner_use ex_body_simple ex_acct_use = false from rfl] at h1
    cases h1
  · intro hs
    have h1 := (contains_key_check_iff ex_body_simple ex_acct_use).mpr hs
    rw [show contains_key_check ex_body_simple ex_acct_use = false from rfl] at h1
    cases h1

/-- C4, counterexample: an expression whose adjusted type is the
Account-Handle Type, which is not a clone call, not a bare local and not
classified safe, is nevertheless skipped, because the candidate type test
reads the unadjusted recorded type, which here is a reference. -/
theorem claim_C4_counterexample :
    match_type (expr_ty_adjusted ex_c4) SOLANA_PROGRAM_ACCOUNT_INFO = true ∧
    (is_expr_method_call ex_c4 CORE_CLONE).isNone = true ∧
    is_expr_local_variable ex_c4 = false ∧
    is_safe_to_account_info ex_c4 = false ∧
    match_type (expr_ty ex_c4) SOLANA_PROGRAM_ACCOUNT_INFO = false ∧
    get_referenced_accounts ex_body_c4 = [] :=
  ⟨by decide, by decide, by decide, by decide, by decide, rfl⟩

/-- C4, amended: the candidate type test reads the expression type as
recorded before adjustments: every collected candidate has unadjusted type
exactly the Account-Handle Type, and an expression whose unadjusted type
is that type and which passes the remaining filters is collected. -/
theorem claim_C4_amended :
    (∀ (body : Body) (c : Expr), c ∈ get_referenced_accounts body →
        ∃ targs, expr_ty c = Ty.adt SOLANA_PROGRAM_ACCOUNT_INFO targs) ∧
    (∀ (uses : List Expr) (e : Expr),
        (∃ targs, expr_ty e = Ty.adt SOLANA_PROGRAM_ACCOUNT_INFO targs) →
        (is_expr_method_call e CORE_CLONE).isNone = true →
        is_expr_local_variable e = false →
        is_safe_to_account_info e = false →
        (uses.any fun u => eq_expr u e) = false →
        should_collect uses e = true) := by
  constructor
  · intro body c hc
    have h := (eligible_candidate_parts (mem_accounts_eligible body c hc)).2.1
    exact (match_type_iff (expr_ty c) SOLANA_PROGRAM_ACCOUNT_INFO).mp h
  · intro uses e hty hclone hlocal hsafe hany
    rw [should_collect_eq]
    have hmt : match_type (expr_ty e) SOLANA_PROGRAM_ACCOUNT_INFO = true :=
      (match_type_iff (expr_ty e) SOLANA_PROGRAM_ACCOUNT_INFO).mpr hty
    simp [eligible_candidate, hclone, hlocal, hsafe, hany, hmt]

/-- C4, amended, witness: the concrete candidate has unadjusted account
type, and an account-typed expression passing the other filters is
collected against the empty use set. -/
theorem claim_C4_witness :
    (∃ targs, expr_ty ex_acct_use = Ty.adt SOLANA_PROGRAM_ACCOUNT_INFO targs) ∧
    should_collect [] ex_acct_use = true := by
  refine ⟨?_, ?_⟩
  · exact claim_C4_amended.1 ex_body_simple ex_acct_use
      (by rw [show get_referenced_accounts ex_body_simple = [ex_acct_use] from rfl]
          exact List.mem_singleton.mpr rfl)
  · exact claim_C4_amended.2 [] ex_acct_use ⟨[], rfl⟩ (by decide) (by decide) (by decide)
      (by decide)

/-- C6: a bare single-segment local-variable reference is never collected
and (since every finding points at a collected candidate) never reported,
while a path of two or more segments is not skipped by this rule. -/
theorem claim_C6_locals :
    (∀ (body : Body) (c : Expr), c ∈ get_referenced_accounts body →
        is_expr_local_variable c = false) ∧
    (∀ (fe : Bool) (body : Body) (f : Finding), f ∈ check_fn fe body →
        ∃ c, c ∈ get_referenced_accounts body ∧ is_expr_local_variable c = false ∧
          f.span = expr_span c) ∧
    (∀ (s : Nat) (t ta : Ty) (q : Option Unit) (segs : List String),
        2 ≤ segs.length →
        is_expr_local_variable (Expr.path s t ta (QPathKind.resolved q segs)) = false) := by
  refine ⟨?_, ?_, ?_⟩
  · intro body c hc
    exact (eligible_candidate_parts (mem_accounts_eligible body c hc)).2.2.1
  · intro fe body f hf
    rcases mem_check_fn_shape hf with ⟨c, hc, _, _, heq⟩
    refine ⟨c, hc, (eligible_candidate_parts (mem_accounts_eligible body c hc)).2.2.1, ?_⟩
    rw [heq]
    rfl
  · intro s t ta q segs hlen
    cases q with
    | none =>
        simp only [is_expr_local_variable, beq_eq_false_iff_ne, ne_eq]
        omega
    | some u => rfl

/-- C6, witness: the concrete candidate is not a bare local, the emitted
finding points at a non-local candidate, and a two-segment path is not
skipped by the local-variable rule. -/
theorem claim_C6_witness :
    is_expr_local_variable ex_acct_use = false ∧
    (∃ c, c ∈ get_referenced_accounts ex_body_simple ∧ is_expr_local_variable c = false ∧
      (span_lint MISSING_OWNER_CHECK 1
        "this Account struct is used but there is no check on its owner field").span
        = expr_span c) ∧
    is_expr_local_variable
      (Expr.path 0 (Ty.prim 0) (Ty.prim 0) (QPathKind.resolved none ["a", "b"])) = false := by
  refine ⟨?_, ?_, ?_⟩
  · exact claim_C6_locals.1 ex_body_simple ex_acct_use
      (by rw [show get_referenced_accounts ex_body_simple = [ex_acct_use] from rfl]
          exact List.mem_singleton.mpr rfl)
  · exact claim_C6_locals.2.1 false ex_body_simple
      (span_lint MISSING_OWNER_CHECK 1
        "this Account struct is used but there is no check on its owner field")
      (by decide)
  · exact claim_C6_locals.2.2 0 (Ty.prim 0) (Ty.prim 0) none ["a", "b"] (by decide)

/-- C7, counterexample: the emitted message reads "this Account struct is
used ...", not "this account is used ..." as claimed. -/
theorem claim_C7_counterexample :
    (check_fn false ex_body_simple).map Finding.message =
      ["this Account struct is used but there is no check on its owner field"] ∧
    "this Account struct is used but there is no check on its owner field" ≠
      "this account is used but there is no check on its owner field" := by
  exact ⟨rfl, by decide⟩

/-- C7, amended: every emitted finding carries an uncovered candidate
expression span, the fixed severity warn, and the fixed message "this
Account struct is used but there is no check on its owner field". -/
theorem claim_C7_finding_shape : ∀ (fe : Bool) (body : Body) (f : Finding),
    f ∈ check_fn fe body →
    f.severity = Severity.warn ∧
    f.message = "this Account struct is used but there is no check on its owner field" ∧
    ∃ c, c ∈ get_referenced_accounts body ∧
      contains_owner_use body c = false ∧ contains_key_check body c = false ∧
      f.span = expr_span c := by
  intro fe body f hf
  rcases mem_check_fn_shape hf with ⟨c, hc, howner, hkey, heq⟩
  subst heq
  exact ⟨rfl, rfl, c, hc, howner, hkey, rfl⟩

/-- C7, amended, witness: the finding of the one-candidate body has
severity warn, the fixed message, and the candidate span. -/
theorem claim_C7_witness :
    (span_lint MISSING_OWNER_CHECK 1
        "this Account struct is used but there is no check on its owner field").severity
      = Severity.warn ∧
    (span_lint MISSING_OWNER_CHECK 1
        "this Account struct is used but there is no check on its owner field").message
      = "this Account struct is used but there is no check on its owner field" ∧
    ∃ c, c ∈ get_referenced_accounts ex_body_simple ∧
      contains_owner_use ex_body_simple c = false ∧
      contains_key_check ex_body_simple c = false ∧
      (span_lint MISSING_OWNER_CHECK 1
        "this Account struct is used but there is no check on its owner field").span
        = expr_span c :=
  claim_C7_finding_shape false ex_body_simple
    (span_lint MISSING_OWNER_CHECK 1
      "this Account struct is used but there is no check on its owner field")
    (by decide)

/-- C8: a call of the canonical clone method is never collected as a
candidate, and the body referencing `ctx.a` and `ctx.a.clone()`, both
otherwise uncovered, yields exactly one finding, at the span of the bare
use. -/
theorem claim_C8_clone_skip :
    (∀ (body : Body) (c : Expr), c ∈ get_referenced_accounts body →
        is_expr_method_call c CORE_CLONE = none) ∧
    check_fn false ex_body_clone =
      [span_lint MISSING_OWNER_CHECK 1
        "this Account struct is used but there is no check on its owner field"] := by
  constructor
  · intro body c hc
    have h := (eligible_candidate_parts (mem_accounts_eligible body c hc)).1
    exact Option.isNone_iff_eq_none.mp h
  · decide

/-- C8, witness: the collected candidate of the clone body is not a clone
call. -/
theorem claim_C8_witness : is_expr_method_call ex_acct_use CORE_CLONE = none :=
  claim_C8_clone_skip.1 ex_body_clone ex_acct_use
    (by rw [show get_referenced_accounts ex_body_clone = [ex_acct_use] from rfl]
        exact List.mem_singleton.mpr rfl)

/-- C10: every collected candidate is the first eligible occurrence of its
structural-equivalence class in the pre-order traversal of the body: no
earlier eligible expression is structurally equal to it, and it is the
unique representative of its class in the Candidate Set, so the single
finding for the class carries its span. -/
theorem claim_C10_first_occurrence (body : Body) (c : Expr)
    (hc : c ∈ get_referenced_accounts body) :
    (∃ l1 l2, preorder body.value = l1 ++ c :: l2 ∧
        ∀ e ∈ l1, eligible_candidate e = true → eq_expr e c = false) ∧
    (∀ c2, c2 ∈ get_referenced_accounts body → eq_expr c2 c = true → c2 = c) := by
  have hc2 := hc
  rw [get_referenced_accounts_eq_collect] at hc2
  rcases mem_collect _ [] c hc2 with h0 | ⟨helig, hfresh, l1, l2, hsplit, hblock⟩
  · cases h0
  constructor
  · exact ⟨l1, l2, hsplit,
      fun e he helig2 => (eq_expr_false_iff e c).mpr (hblock e he helig2)⟩
  · intro c2 hc2mem heq
    exact pairwise_erase_mem_eq (accounts_pairwise_erase body) c2 hc2mem c hc
      ((eq_expr_iff_erase c2 c).mp heq)

/-- C10, witness: in the body with two structurally equal account uses,
the collected candidate is the first occurrence in pre-order, no earlier
eligible expression matches it, and it is its class representative. -/
theorem claim_C10_witness :
    (∃ l1 l2, preorder ex_body_dup.value = l1 ++ ex_acct_use :: l2 ∧
        ∀ e ∈ l1, eligible_candidate e = true → eq_expr e ex_acct_use = false) ∧
    (∀ c2, c2 ∈ get_referenced_accounts ex_body_dup →
        eq_expr c2 ex_acct_use = true → c2 = ex_acct_use) :=
  claim_C10_first_occurrence ex_body_dup ex_acct_use
    (by rw [show get_referenced_accounts ex_body_dup = [ex_acct_use] from rfl]
        exact List.mem_singleton.mpr rfl)
